import Mathlib

/-!
# DataVault — shallow embedding and verification

Shallow embedding of the DataVault backup tool (Go sources: `main.go`,
`config.go`, `backup.go`, `gdrive.go` including the pCloud client).

Modelling conventions:
* A local directory tree is the inductive `Entry` (files carry byte content
  as `List Nat` and a permission mode; directories carry children in
  `os.ReadDir` order).
* A provider-side store is a flat list of `RFile` records (id, name, kind,
  parent id, content), matching both the Google Drive object API and the
  pCloud numeric-folder-id API; record order is creation order.
* Network calls that can fail are driven by failure oracles
  (`Nat → Bool`, indexed by a per-walk operation counter); a Go `context`
  is modelled by an optional cancellation point `cancelAt : Option Nat`
  compared against a counter of `select ctx.Done()` checks (once the
  signal has fired it stays fired).
* Go `error` values are the inductive `GoErr`; `none` is Go's `nil` error.
-/

set_option autoImplicit false

namespace DataVault

/-- A local filesystem tree entry: either a file (name, byte content,
permission mode) or a directory (name, mode, children in directory order). -/
inductive Entry where
  | file (name : String) (content : List Nat) (mode : Nat)
  | dir (name : String) (mode : Nat) (children : List Entry)

/-- Number of entries (files and directories) in a forest, counted
recursively. Each entry corresponds to exactly one provider `Create` call
during a fully successful mirror. -/
def sizeL : List Entry → Nat
  | [] => 0
  | Entry.file _ _ _ :: rest => 1 + sizeL rest
  | Entry.dir _ _ children :: rest => 1 + sizeL children + sizeL rest

/-- `BackupManager.copyFile`: the destination file holds the same bytes
(`io.Copy`) and then `os.Chmod` re-applies the source mode. -/
def copyFile (content : List Nat) (mode : Nat) : List Nat × Nat :=
  (content, mode)

/-- `BackupManager.copyDirectory`: `filepath.Walk` over the source tree
recreates every directory under the destination with `os.MkdirAll(dstPath,
info.Mode())` and copies every file with `copyFile`. No entry is filtered
out (there is no exclusion logic in the walk callback). -/
def cloneList : List Entry → List Entry
  | [] => []
  | Entry.file n c m :: rest =>
      Entry.file n (copyFile c m).1 (copyFile c m).2 :: cloneList rest
  | Entry.dir n m children :: rest =>
      Entry.dir n m (cloneList children) :: cloneList rest

/-! ## Configuration (`main.go` `Config`, `config.go` `ConfigFile`,
`MergeConfigWithFlags`) -/

/-- `config.go` `ConfigFile`: the JSON configuration file contents. -/
structure ConfigFile where
  sourceFolder : String
  backupInterval : String
  googleDriveAuth : String
  pcloudAuth : String
  excludes : List String
  dryRun : Bool
  verbose : Bool
  maxBackups : Int
deriving DecidableEq

/-- `main.go` `Config`: the resolved flag configuration. `BackupInterval`
is a `time.Duration` (an `Int` count of nanoseconds). Note the struct has
no field for exclude patterns. -/
structure Config where
  sourceFolder : String
  backupInterval : Int
  configFile : String
  googleDriveAuth : String
  pcloudAuth : String
  dryRun : Bool
  verbose : Bool
deriving DecidableEq

/-- `time.Hour` in nanoseconds, the `-interval` flag default. -/
def timeHour : Int := 3600000000000

/-- `config.go` `MergeConfigWithFlags`. `parseDuration` stands for the Go
standard-library `time.ParseDuration` collaborator (`none` models a parse
error, in which case the flag value is kept). -/
def MergeConfigWithFlags (parseDuration : String → Option Int)
    (config : ConfigFile) (flags : Config) : Config :=
  let r0 := flags
  let r1 := if r0.sourceFolder = "" ∧ config.sourceFolder ≠ "" then
      { r0 with sourceFolder := config.sourceFolder } else r0
  let r2 := if r1.googleDriveAuth = "" ∧ config.googleDriveAuth ≠ "" then
      { r1 with googleDriveAuth := config.googleDriveAuth } else r1
  let r3 := if r2.pcloudAuth = "" ∧ config.pcloudAuth ≠ "" then
      { r2 with pcloudAuth := config.pcloudAuth } else r2
  let r4 := if r3.backupInterval = timeHour ∧ config.backupInterval ≠ "" then
      match parseDuration config.backupInterval with
      | some d => { r3 with backupInterval := d }
      | none => r3
    else r3
  let r5 := if ¬ flags.dryRun ∧ config.dryRun then
      { r4 with dryRun := config.dryRun } else r4
  let r6 := if ¬ flags.verbose ∧ config.verbose then
      { r5 with verbose := config.verbose } else r5
  r6

/-! ## Upload aggregation (`backup.go` `RunBackup`) -/

/-- `backup.go` `BackupResult` (the timestamp field is omitted; it never
influences control flow). -/
structure BackupResult where
  success : Bool
  message : String
deriving DecidableEq

/-- The Google Drive `BackupResult` sent on the `results` channel:
`some b` means the client is configured (`bm.gdrive != nil`) and its
`UploadFolder` returned nil iff `b`; `none` means not configured. -/
def gdResultOf : Option Bool → BackupResult
  | some true => ⟨true, "Google Drive upload successful"⟩
  | some false => ⟨false, "Google Drive upload failed"⟩
  | none => ⟨false, "Google Drive not configured"⟩

/-- The pCloud `BackupResult` sent on the `results` channel. -/
def pcResultOf : Option Bool → BackupResult
  | some true => ⟨true, "pCloud upload successful"⟩
  | some false => ⟨false, "pCloud upload failed"⟩
  | none => ⟨false, "pCloud not configured"⟩

/-- The two results collected from the channel by `RunBackup`'s
`for i := 0; i < 2; i++` loop (the loop always drains exactly two). -/
def uploadResults (gd pc : Option Bool) : List BackupResult :=
  [gdResultOf gd, pcResultOf pc]

/-- `successCount` as computed by `RunBackup`'s collection loop. -/
def successCount (gd pc : Option Bool) : Nat :=
  (uploadResults gd pc).countP (fun r => r.success)

/-- Number of configured backends (clients that are non-nil). -/
def configuredCount (gd pc : Option Bool) : Nat :=
  (if gd.isSome then 1 else 0) + (if pc.isSome then 1 else 0)

/-- The upload phase's return value: `RunBackup` returns the error
`all uploads failed` when `successCount == 0`, otherwise nil (we carry the
count out for the success report). -/
def runBackupUploadPhase (gd pc : Option Bool) : Except String Nat :=
  if successCount gd pc = 0 then Except.error "all uploads failed"
  else Except.ok (successCount gd pc)

/-- The success log line `"Backup completed successfully (%d/2 uploads
succeeded)"` as a pair (numerator, denominator). The denominator is the
literal `2` in the format string. -/
def reportedCounts (gd pc : Option Bool) : Nat × Nat :=
  (successCount gd pc, 2)

/-- Observable trace of one `RunBackup` call: the returned error (if any),
whether the deferred `cleanup` ran, and whether `cleanup` logged a removal
warning. -/
structure RunTrace where
  err : Option String
  cleanupRan : Bool
  cleanupWarn : Bool
deriving DecidableEq

/-- `backup.go` `RunBackup`, whole-cycle control flow. `mkdirOk` is the
outcome of `os.MkdirAll(backupPath)`, `copyOk` of `copyDirectory`,
`removeOk` of `os.RemoveAll` inside `cleanup`; `gd`/`pc` are the per-backend
upload outcomes as in `uploadResults`. The `defer bm.cleanup(backupPath)`
is registered only after `MkdirAll` succeeded; `cleanup` logs a removal
failure and returns nothing, so `removeOk` never reaches the result. -/
def RunBackup (mkdirOk copyOk dryRun : Bool) (gd pc : Option Bool)
    (removeOk : Bool) : RunTrace :=
  if ¬ mkdirOk then ⟨some "failed to create backup directory", false, false⟩
  else
    let warn := ¬ removeOk
    if ¬ copyOk then ⟨some "failed to copy source directory", true, warn⟩
    else if dryRun then ⟨none, true, warn⟩
    else
      match runBackupUploadPhase gd pc with
      | Except.error e => ⟨some e, true, warn⟩
      | Except.ok _ => ⟨none, true, warn⟩

/-! ## Scheduler (`backup.go` `StartScheduler`, `main.go` `main`) -/

/-- One event observed by `StartScheduler`'s `select`: a ticker tick or the
context cancellation becoming ready. -/
inductive SchedEvent where
  | tick
  | cancel
deriving DecidableEq

/-- Go error values relevant to the adapters and the scheduler. -/
inductive GoErr where
  /-- `ctx.Err()` after cancellation (`context.Canceled`). -/
  | ctxCanceled
  /-- `"Google Drive service not initialized"`. -/
  | notInitialized
  /-- `"failed to create backup folder: %w"`. -/
  | createBackupFolderFailed
  /-- pCloud `"failed to parse folder response: %w"`. -/
  | parseFolderRespFailed
  /-- pCloud `"pCloud API error: %s"` (non-zero `result`). -/
  | pcloudApiError
deriving DecidableEq

/-- `backup.go` `StartScheduler`: the `for { select ... } }` loop, run
against a finite prefix of the event stream. `results i` is the success of
the i-th `RunBackup` invocation; an error is only logged (`"Scheduled
backup failed"`), never returned. Returns Go's return value (`none` while
the loop is still running when the observed prefix ends) and the list of
cycle results driven so far. -/
def StartScheduler (results : Nat → Bool) (i : Nat) :
    List SchedEvent → Option GoErr × List Bool
  | [] => (none, [])
  | SchedEvent.cancel :: _ => (some GoErr.ctxCanceled, [])
  | SchedEvent.tick :: rest =>
      ((StartScheduler results (i + 1) rest).1,
        results i :: (StartScheduler results (i + 1) rest).2)

/-- `main.go` lines 99–107: one immediate `RunBackup` (its error only
logged), then `StartScheduler`. -/
def mainRun (results : Nat → Bool) (events : List SchedEvent) :
    Option GoErr × List Bool :=
  ((StartScheduler results 1 events).1,
    results 0 :: (StartScheduler results 1 events).2)

/-- Number of ticks strictly before the first cancellation in the observed
event prefix. -/
def ticksUntilCancel : List SchedEvent → Nat
  | [] => 0
  | SchedEvent.cancel :: _ => 0
  | SchedEvent.tick :: rest => 1 + ticksUntilCancel rest

/-! ## Provider-side store

Both providers expose "create a folder under parent, get back a fresh id"
and "create a file with these bytes under parent". The remote account is a
flat list of records in creation order; Google Drive ids are opaque strings
and pCloud ids are `int64`, both modelled as `Nat`. pCloud's global root is
folderid `0`; Google Drive's "My Drive" root is modelled as parent `none`. -/

/-- One remote object: folder or file. `trashed` models Google Drive's
trash flag (consulted by the root-folder search query). -/
structure RFile where
  id : Nat
  name : String
  isFolder : Bool
  parent : Option Nat
  content : List Nat
  trashed : Bool
deriving DecidableEq

/-- Immediate children of folder `fid`, in store (creation) order. -/
def childrenOf (store : List RFile) (fid : Nat) : List RFile :=
  store.filter (fun f => f.parent = some fid)

/-- State threaded through an upload: the remote store, the next fresh
native id, a counter of provider network calls (`ops`, indexing the failure
oracle) and a counter of `select ctx.Done()` checks (`checks`, indexing the
cancellation point). -/
structure WState where
  store : List RFile
  nextId : Nat
  ops : Nat
  checks : Nat
deriving DecidableEq

/-- The `select { case <-ctx.Done(): ... default: }` test: the context is
done at check number `t` iff the cancellation signal fired at some earlier
or equal check index (once fired it stays fired). -/
def ctxDone (cancelAt : Option Nat) (t : Nat) : Bool :=
  match cancelAt with
  | none => false
  | some k => k ≤ t

/-! ## Root container resolution (`ensureRootFolder`) -/

/-- `gdrive.go` `GoogleDriveClient.ensureRootFolder`: `Files.List` with
query `name='DataVault' and mimeType=folder and trashed=false`, take
`Files[0].Id` if non-empty, else `Files.Create` a `DataVault` folder (no
parents field, so it lands in the drive root). Returns the resolved
`rootFolderID` with the updated account. -/
def gdEnsureRootFolder (store : List RFile) (nextId : Nat) :
    Nat × List RFile × Nat :=
  match store.filter (fun f => f.name = "DataVault" ∧ f.isFolder ∧ ¬ f.trashed) with
  | m :: _ => (m.id, store, nextId)
  | [] =>
      (nextId, store ++ [⟨nextId, "DataVault", true, none, [], false⟩], nextId + 1)

/-- `gdrive.go` `PCloudClient.ensureRootFolder`: `listfolder` on folderid 0,
scan the contents for the first item with `IsFolder && Name == "DataVault"`,
else `createfolder` a `DataVault` folder under folderid 0. -/
def pcEnsureRootFolder (store : List RFile) (nextId : Nat) :
    Nat × List RFile × Nat :=
  match (childrenOf store 0).find? (fun f => f.isFolder ∧ f.name = "DataVault") with
  | some item => (item.id, store, nextId)
  | none =>
      (nextId, store ++ [⟨nextId, "DataVault", true, some 0, [], false⟩], nextId + 1)

/-! ## Recursive mirror upload -/

/-- `gdrive.go` `GoogleDriveClient` (only the field relevant to control
flow: whether `initialize` installed a Drive service, plus the resolved
root folder id). -/
structure GoogleDriveClient where
  serviceInit : Bool
  rootFolderID : Nat
deriving DecidableEq

/-- `gdrive.go` `PCloudClient` control-flow state: `rootFolderID` is an
`int64` whose zero value (the pCloud account root!) is what an instance
holds when `ensureRootFolder` never succeeded. There is no service handle
to be nil. -/
structure PCloudClient where
  rootFolderID : Nat
deriving DecidableEq

/-- `gdrive.go` `GoogleDriveClient.uploadDirectoryRecursive`. Per entry:
check cancellation (`return ctx.Err()` when done); for a directory, create
the remote folder (on failure: log and `continue`), recurse with the new
folder id — an error from the recursive call (including a cancellation
error) is only logged; for a file, `uploadFile` (on failure: log and
continue). Returns nil after the loop. `fail n` decides whether the n-th
provider call fails. -/
def gdUploadRec (fail : Nat → Bool) (cancelAt : Option Nat) :
    List Entry → Nat → WState → Option GoErr × WState
  | [], _, st => (none, st)
  | e :: rest, parent, st =>
      if ctxDone cancelAt st.checks then
        (some GoErr.ctxCanceled, { st with checks := st.checks + 1 })
      else
        let st1 : WState := { st with checks := st.checks + 1 }
        match e with
        | Entry.dir name _mode children =>
            if fail st1.ops then
              gdUploadRec fail cancelAt rest parent { st1 with ops := st1.ops + 1 }
            else
              let fid := st1.nextId
              let st2 : WState :=
                { st1 with
                  store := st1.store ++ [⟨fid, name, true, some parent, [], false⟩]
                  nextId := fid + 1
                  ops := st1.ops + 1 }
              let st3 := (gdUploadRec fail cancelAt children fid st2).2
              gdUploadRec fail cancelAt rest parent st3
        | Entry.file name content _mode =>
            if fail st1.ops then
              gdUploadRec fail cancelAt rest parent { st1 with ops := st1.ops + 1 }
            else
              let fid := st1.nextId
              gdUploadRec fail cancelAt rest parent
                { st1 with
                  store := st1.store ++ [⟨fid, name, false, some parent, content, false⟩]
                  nextId := fid + 1
                  ops := st1.ops + 1 }
  termination_by entries _ _ => sizeL entries
  decreasing_by all_goals (simp [sizeL]; try omega)

/-- `gdrive.go` `GoogleDriveClient.UploadFolder`: fail fast when the Drive
service was never initialized; create the run's backup folder under
`rootFolderID` (a failure here aborts); then mirror recursively. -/
def gdUploadFolder (fail : Nat → Bool) (cancelAt : Option Nat)
    (gdc : GoogleDriveClient) (tree : List Entry) (backupName : String)
    (st : WState) : Option GoErr × WState :=
  if ¬ gdc.serviceInit then (some GoErr.notInitialized, st)
  else if fail st.ops then
    (some GoErr.createBackupFolderFailed, { st with ops := st.ops + 1 })
  else
    let fid := st.nextId
    let st2 : WState :=
      { st with
        store := st.store ++ [⟨fid, backupName, true, some gdc.rootFolderID, [], false⟩]
        nextId := fid + 1
        ops := st.ops + 1 }
    gdUploadRec fail cancelAt tree fid st2

/-- `gdrive.go` `PCloudClient.uploadDirectoryRecursive`. Same walk shape as
the Drive one, but a folder creation has three distinct failure exits, each
logged followed by `continue`: the HTTP request fails (`httpFail`), the
JSON response fails to parse (`parseFail`), or the response carries a
non-zero `result` (`resultFail`). A nested recursive error is only logged;
a file-upload error is only logged. -/
def pcUploadRec (httpFail parseFail resultFail : Nat → Bool)
    (cancelAt : Option Nat) :
    List Entry → Nat → WState → Option GoErr × WState
  | [], _, st => (none, st)
  | e :: rest, parent, st =>
      if ctxDone cancelAt st.checks then
        (some GoErr.ctxCanceled, { st with checks := st.checks + 1 })
      else
        let st1 : WState := { st with checks := st.checks + 1 }
        match e with
        | Entry.dir name _mode children =>
            if httpFail st1.ops then
              pcUploadRec httpFail parseFail resultFail cancelAt rest parent
                { st1 with ops := st1.ops + 1 }
            else if parseFail st1.ops then
              pcUploadRec httpFail parseFail resultFail cancelAt rest parent
                { st1 with ops := st1.ops + 1 }
            else if resultFail st1.ops then
              pcUploadRec httpFail parseFail resultFail cancelAt rest parent
                { st1 with ops := st1.ops + 1 }
            else
              let fid := st1.nextId
              let st2 : WState :=
                { st1 with
                  store := st1.store ++ [⟨fid, name, true, some parent, [], false⟩]
                  nextId := fid + 1
                  ops := st1.ops + 1 }
              let st3 :=
                (pcUploadRec httpFail parseFail resultFail cancelAt children fid st2).2
              pcUploadRec httpFail parseFail resultFail cancelAt rest parent st3
        | Entry.file name content _mode =>
            if httpFail st1.ops ∨ parseFail st1.ops ∨ resultFail st1.ops then
              pcUploadRec httpFail parseFail resultFail cancelAt rest parent
                { st1 with ops := st1.ops + 1 }
            else
              let fid := st1.nextId
              pcUploadRec httpFail parseFail resultFail cancelAt rest parent
                { st1 with
                  store := st1.store ++ [⟨fid, name, false, some parent, content, false⟩]
                  nextId := fid + 1
                  ops := st1.ops + 1 }
  termination_by entries _ _ => sizeL entries
  decreasing_by all_goals (simp [sizeL]; try omega)

/-- `gdrive.go` `PCloudClient.UploadFolder`: note there is no
initialization guard — the function goes straight to the `createfolder`
request under `pc.rootFolderID` (the request fails the whole call on HTTP
error, parse error, or non-zero `result`), then mirrors recursively. -/
def pcUploadFolder (httpFail parseFail resultFail : Nat → Bool)
    (cancelAt : Option Nat) (pc : PCloudClient) (tree : List Entry)
    (backupName : String) (st : WState) : Option GoErr × WState :=
  if httpFail st.ops then
    (some GoErr.createBackupFolderFailed, { st with ops := st.ops + 1 })
  else if parseFail st.ops then
    (some GoErr.parseFolderRespFailed, { st with ops := st.ops + 1 })
  else if resultFail st.ops then
    (some GoErr.pcloudApiError, { st with ops := st.ops + 1 })
  else
    let fid := st.nextId
    let st2 : WState :=
      { st with
        store := st.store ++ [⟨fid, backupName, true, some pc.rootFolderID, [], false⟩]
        nextId := fid + 1
        ops := st.ops + 1 }
    pcUploadRec httpFail parseFail resultFail cancelAt tree fid st2

/-- Number of `DataVault` containers visible to the Google Drive
root-folder search query. -/
def gdDataVaultCount (store : List RFile) : Nat :=
  (store.filter (fun f => f.name = "DataVault" ∧ f.isFolder ∧ ¬ f.trashed)).length

/-- Number of `DataVault` folders among the children of the pCloud global
root (folderid 0). -/
def pcDataVaultCount (store : List RFile) : Nat :=
  ((childrenOf store 0).filter (fun f => f.isFolder ∧ f.name = "DataVault")).length

/-! ## Remote-tree isomorphism

`enc entries parent nid` is the exact flat store a fully successful mirror
walk appends: ids are assigned depth-first in walk order starting at `nid`,
every top-level entry is parented at `parent`, and a directory's children
block immediately follows its folder record. `mirrorsL` checks that a
remote child list matches a local forest: same order, same names, files
with the same bytes, directories mapped to containers whose remote
children recursively match. -/

/-- The records appended by a fully successful walk of `entries` under
container `parent`, ids allocated from `nid` in walk order. -/
def enc : List Entry → Nat → Nat → List RFile
  | [], _, _ => []
  | Entry.file nm c _ :: rest, parent, nid =>
      ⟨nid, nm, false, some parent, c, false⟩ :: enc rest parent (nid + 1)
  | Entry.dir nm _ ch :: rest, parent, nid =>
      ⟨nid, nm, true, some parent, [], false⟩ ::
        (enc ch nid (nid + 1) ++ enc rest parent (nid + 1 + sizeL ch))

/-- Just the top-level records of `enc` (the direct children of `parent`). -/
def topRecs : List Entry → Nat → Nat → List RFile
  | [], _, _ => []
  | Entry.file nm c _ :: rest, parent, nid =>
      ⟨nid, nm, false, some parent, c, false⟩ :: topRecs rest parent (nid + 1)
  | Entry.dir nm _ ch :: rest, parent, nid =>
      ⟨nid, nm, true, some parent, [], false⟩ ::
        topRecs rest parent (nid + 1 + sizeL ch)

/-- `mirrorsL S fs es`: the remote records `fs` (a candidate child list
inside store `S`) mirror the local forest `es` entry by entry — equal
names, files with identical byte content, and each local directory mapped
to a remote container whose own children (looked up in `S`) recursively
mirror the directory's children. This is the "same relative paths, same
bytes, directories to containers" isomorphism. -/
def mirrorsL (S : List RFile) : List RFile → List Entry → Bool
  | [], [] => true
  | f :: fs, Entry.file nm c _ :: es =>
      f.name == nm && !f.isFolder && f.content == c && mirrorsL S fs es
  | f :: fs, Entry.dir nm _ ch :: es =>
      f.name == nm && f.isFolder && mirrorsL S (childrenOf S f.id) ch &&
        mirrorsL S fs es
  | _, _ => false
  termination_by _ es => sizeL es
  decreasing_by all_goals (simp [sizeL]; try omega)

/-- The Google Drive `DataVault` root container created on an empty
account (`gdEnsureRootFolder [] 1`). -/
def gdRootRec : RFile := ⟨1, "DataVault", true, none, [], false⟩

/-- The pCloud `DataVault` root container created on an empty account
(child of the global root folderid 0). -/
def pcRootRec : RFile := ⟨1, "DataVault", true, some 0, [], false⟩

/-- The run container created by `UploadFolder` under the root container. -/
def runRec (nm : String) : RFile := ⟨2, nm, true, some 1, [], false⟩

/-- A complete first backup cycle against an empty Google Drive account
with a reliable network: resolve the root container, clone the source tree
into staging (`cloneList`), and mirror the staged tree with
`UploadFolder`. -/
def gdFreshBackupRun (tree : List Entry) (nm : String) : Option GoErr × WState :=
  gdUploadFolder (fun _ => false) none ⟨true, (gdEnsureRootFolder [] 1).1⟩
    (cloneList tree) nm
    ⟨(gdEnsureRootFolder [] 1).2.1, (gdEnsureRootFolder [] 1).2.2, 0, 0⟩

/-- The same first backup cycle against an empty pCloud account. -/
def pcFreshBackupRun (tree : List Entry) (nm : String) : Option GoErr × WState :=
  pcUploadFolder (fun _ => false) (fun _ => false) (fun _ => false) none
    ⟨(pcEnsureRootFolder [] 1).1⟩ (cloneList tree) nm
    ⟨(pcEnsureRootFolder [] 1).2.1, (pcEnsureRootFolder [] 1).2.2, 0, 0⟩

/-! ## Helper lemmas -/

theorem cloneList_bounded :
    ∀ (n : Nat) (entries : List Entry), sizeL entries ≤ n →
      cloneList entries = entries := by
  intro n
  induction n with
  | zero =>
      intro entries h
      cases entries with
      | nil => simp [cloneList]
      | cons e rest => cases e <;> simp [sizeL] at h
  | succ n ih =>
      intro entries h
      cases entries with
      | nil => simp [cloneList]
      | cons e rest =>
          cases e with
          | file nm c m =>
              simp only [sizeL] at h
              simp [cloneList, copyFile, ih rest (by omega)]
          | dir nm m children =>
              simp only [sizeL] at h
              simp [cloneList, ih children (by omega), ih rest (by omega)]

/-- The directory cloner reproduces the source tree exactly: every file
(same bytes, same mode) and every directory (same mode) at the same
relative path, nothing filtered out. -/
theorem cloneList_eq (entries : List Entry) : cloneList entries = entries :=
  cloneList_bounded (sizeL entries) entries le_rfl

theorem startScheduler_spec (results : Nat → Bool) :
    ∀ (events : List SchedEvent) (i : Nat),
      (StartScheduler results i events).2 =
        (List.range' i (ticksUntilCancel events)).map results ∧
      (StartScheduler results i events).1 =
        (if SchedEvent.cancel ∈ events then some GoErr.ctxCanceled else none) := by
  intro events
  induction events with
  | nil => intro i; simp [StartScheduler, ticksUntilCancel]
  | cons e rest ih =>
      intro i
      cases e with
      | cancel => simp [StartScheduler, ticksUntilCancel]
      | tick =>
          have h := ih (i + 1)
          have ht : ticksUntilCancel (SchedEvent.tick :: rest) =
              ticksUntilCancel rest + 1 := by
            simp [ticksUntilCancel, Nat.add_comm]
          constructor
          · show results i :: (StartScheduler results (i + 1) rest).2 = _
            rw [h.1, ht, List.range'_succ, List.map_cons]
          · show (StartScheduler results (i + 1) rest).1 = _
            rw [h.2]
            simp

theorem gdUploadRec_no_cancel (fail : Nat → Bool) :
    ∀ (n : Nat) (entries : List Entry) (parent : Nat) (st : WState),
      sizeL entries ≤ n → (gdUploadRec fail none entries parent st).1 = none := by
  intro n
  induction n with
  | zero =>
      intro entries parent st h
      cases entries with
      | nil => simp [gdUploadRec]
      | cons e rest => cases e <;> simp [sizeL] at h
  | succ n ih =>
      intro entries parent st h
      cases entries with
      | nil => simp [gdUploadRec]
      | cons e rest =>
          cases e with
          | file nm c m =>
              simp only [sizeL] at h
              rw [gdUploadRec]
              simp only [ctxDone, Bool.false_eq_true, if_false]
              by_cases hf : fail st.ops = true <;>
                simp only [hf, if_true, Bool.false_eq_true, if_false] <;>
                exact ih rest parent _ (by omega)
          | dir nm m children =>
              simp only [sizeL] at h
              rw [gdUploadRec]
              simp only [ctxDone, Bool.false_eq_true, if_false]
              by_cases hf : fail st.ops = true <;>
                simp only [hf, if_true, Bool.false_eq_true, if_false] <;>
                exact ih rest parent _ (by omega)

theorem pcUploadRec_eq_gd (hF pF rF : Nat → Bool) (cancelAt : Option Nat) :
    ∀ (n : Nat) (entries : List Entry) (parent : Nat) (st : WState),
      sizeL entries ≤ n →
      pcUploadRec hF pF rF cancelAt entries parent st =
        gdUploadRec (fun k => hF k || pF k || rF k) cancelAt entries parent st := by
  intro n
  induction n with
  | zero =>
      intro entries parent st h
      cases entries with
      | nil => simp [pcUploadRec, gdUploadRec]
      | cons e rest => cases e <;> simp [sizeL] at h
  | succ n ih =>
      intro entries parent st h
      cases entries with
      | nil => simp [pcUploadRec, gdUploadRec]
      | cons e rest =>
          cases e with
          | file nm c m =>
              simp only [sizeL] at h
              rw [pcUploadRec, gdUploadRec]
              by_cases hd : ctxDone cancelAt st.checks = true
              · simp [hd]
              · simp only [hd, Bool.false_eq_true, if_false]
                by_cases h1 : hF st.ops = true <;>
                  by_cases h2 : pF st.ops = true <;>
                  by_cases h3 : rF st.ops = true <;>
                  simp only [h1, h2, h3, Bool.or_true, Bool.true_or,
                    Bool.or_false, Bool.false_or, if_true, Bool.false_eq_true,
                    if_false, true_or, or_true, false_or, or_false,
                    or_self, if_true] <;>
                  exact ih rest parent _ (by omega)
          | dir nm m children =>
              simp only [sizeL] at h
              rw [pcUploadRec, gdUploadRec]
              by_cases hd : ctxDone cancelAt st.checks = true
              · simp [hd]
              · simp only [hd, Bool.false_eq_true, if_false]
                by_cases h1 : hF st.ops = true <;>
                  by_cases h2 : pF st.ops = true <;>
                  by_cases h3 : rF st.ops = true <;>
                  simp only [h1, h2, h3, Bool.or_true, Bool.true_or,
                    Bool.or_false, Bool.false_or, if_true, Bool.false_eq_true,
                    if_false] <;>
                  first
                    | exact ih rest parent _ (by omega)
                    | (rw [ih children _ _ (by omega)]
                       exact ih rest parent _ (by omega))

theorem gdUploadRec_ops_mono (fail : Nat → Bool) (cancelAt : Option Nat) :
    ∀ (n : Nat) (entries : List Entry) (parent : Nat) (st : WState),
      sizeL entries ≤ n →
      st.ops ≤ (gdUploadRec fail cancelAt entries parent st).2.ops := by
  intro n
  induction n with
  | zero =>
      intro entries parent st h
      cases entries with
      | nil => simp [gdUploadRec]
      | cons e rest => cases e <;> simp [sizeL] at h
  | succ n ih =>
      intro entries parent st h
      cases entries with
      | nil => simp [gdUploadRec]
      | cons e rest =>
          cases e with
          | file nm c m =>
              simp only [sizeL] at h
              rw [gdUploadRec]
              by_cases hd : ctxDone cancelAt st.checks = true
              · simp [hd]
              · simp only [hd, Bool.false_eq_true, if_false]
                by_cases hf : fail st.ops = true <;>
                  simp only [hf, if_true, Bool.false_eq_true, if_false] <;>
                  exact le_trans (by dsimp only; omega) (ih rest parent _ (by omega))
          | dir nm m children =>
              simp only [sizeL] at h
              rw [gdUploadRec]
              by_cases hd : ctxDone cancelAt st.checks = true
              · simp [hd]
              · simp only [hd, Bool.false_eq_true, if_false]
                by_cases hf : fail st.ops = true
                · simp only [hf, if_true]
                  exact le_trans (by dsimp only; omega) (ih rest parent _ (by omega))
                · simp only [hf, Bool.false_eq_true, if_false]
                  refine le_trans ?_ (ih rest parent _ (by omega))
                  exact le_trans (by dsimp only; omega) (ih children _ _ (by omega))

theorem gdUploadRec_all_ok :
    ∀ (n : Nat) (entries : List Entry) (parent : Nat) (st : WState),
      sizeL entries ≤ n →
      gdUploadRec (fun _ => false) none entries parent st =
        (none, ⟨st.store ++ enc entries parent st.nextId,
                st.nextId + sizeL entries, st.ops + sizeL entries,
                st.checks + sizeL entries⟩) := by
  intro n
  induction n with
  | zero =>
      intro entries parent st h
      cases entries with
      | nil => simp [gdUploadRec, enc, sizeL]
      | cons e rest => cases e <;> simp [sizeL] at h
  | succ n ih =>
      intro entries parent st h
      cases entries with
      | nil => simp [gdUploadRec, enc, sizeL]
      | cons e rest =>
          cases e with
          | file nm c m =>
              simp only [sizeL] at h
              rw [gdUploadRec]
              simp only [ctxDone, Bool.false_eq_true, if_false]
              rw [ih rest parent _ (by omega)]
              simp only [enc, sizeL, Prod.mk.injEq, WState.mk.injEq]
              simp [List.append_assoc]
              omega
          | dir nm m children =>
              simp only [sizeL] at h
              rw [gdUploadRec]
              simp only [ctxDone, Bool.false_eq_true, if_false]
              rw [ih children _ _ (by omega)]
              dsimp only
              rw [ih rest parent _ (by omega)]
              simp only [enc, sizeL, Prod.mk.injEq, WState.mk.injEq]
              simp [List.append_assoc]
              omega

theorem childrenOf_eq_nil (L : List RFile) (fid : Nat)
    (h : ∀ f ∈ L, ∀ p, f.parent = some p → p ≠ fid) :
    childrenOf L fid = [] := by
  unfold childrenOf
  rw [List.filter_eq_nil_iff]
  intro f hf
  simp only [decide_eq_true_eq]
  intro hp
  exact h f hf fid hp rfl

theorem enc_parents :
    ∀ (n : Nat) (entries : List Entry) (parent nid : Nat) (f : RFile),
      sizeL entries ≤ n → f ∈ enc entries parent nid →
      ∀ p, f.parent = some p →
        p = parent ∨ (nid ≤ p ∧ p < nid + sizeL entries) := by
  intro n
  induction n with
  | zero =>
      intro entries parent nid f h hf
      cases entries with
      | nil => simp [enc] at hf
      | cons e rest => cases e <;> simp [sizeL] at h
  | succ n ih =>
      intro entries parent nid f h hf p hp
      cases entries with
      | nil => simp [enc] at hf
      | cons e rest =>
          cases e with
          | file nm c m =>
              simp only [sizeL] at h
              simp only [enc, List.mem_cons] at hf
              rcases hf with hf | hf
              · subst hf
                simp at hp
                left
                omega
              · rcases ih rest parent (nid + 1) f (by omega) hf p hp with
                  h' | h'
                · left; exact h'
                · right; simp only [sizeL]; omega
          | dir nm m children =>
              simp only [sizeL] at h
              simp only [enc, List.mem_cons, List.mem_append] at hf
              rcases hf with hf | hf | hf
              · subst hf
                simp at hp
                left
                omega
              · rcases ih children nid (nid + 1) f (by omega) hf p hp with
                  h' | h'
                · right; simp only [sizeL]; omega
                · right; simp only [sizeL]; omega
              · rcases ih rest parent (nid + 1 + sizeL children) f (by omega)
                  hf p hp with h' | h'
                · left; exact h'
                · right; simp only [sizeL]; omega

theorem childrenOf_enc_top :
    ∀ (n : Nat) (entries : List Entry) (parent nid : Nat),
      sizeL entries ≤ n → parent < nid →
      childrenOf (enc entries parent nid) parent =
        topRecs entries parent nid := by
  intro n
  induction n with
  | zero =>
      intro entries parent nid h hlt
      cases entries with
      | nil => simp [enc, topRecs, childrenOf]
      | cons e rest => cases e <;> simp [sizeL] at h
  | succ n ih =>
      intro entries parent nid h hlt
      cases entries with
      | nil => simp [enc, topRecs, childrenOf]
      | cons e rest =>
          cases e with
          | file nm c m =>
              simp only [sizeL] at h
              rw [enc, topRecs]
              unfold childrenOf
              rw [List.filter_cons_of_pos (by simp)]
              have := ih rest parent (nid + 1) (by omega) (by omega)
              unfold childrenOf at this
              rw [this]
          | dir nm m children =>
              simp only [sizeL] at h
              rw [enc, topRecs]
              unfold childrenOf
              rw [List.filter_cons_of_pos (by simp), List.filter_append]
              have hch : (enc children nid (nid + 1)).filter
                  (fun f => decide (f.parent = some parent)) = [] := by
                have := childrenOf_eq_nil (enc children nid (nid + 1)) parent ?_
                · unfold childrenOf at this
                  exact this
                · intro f hf p hp
                  rcases enc_parents (sizeL children) children nid (nid + 1) f
                    le_rfl hf p hp with h' | h' <;> omega
              rw [hch]
              have := ih rest parent (nid + 1 + sizeL children) (by omega)
                (by omega)
              unfold childrenOf at this
              rw [this]
              simp

theorem mirrorsL_topRecs :
    ∀ (n : Nat) (es : List Entry) (parent nid : Nat) (X Y : List RFile),
      sizeL es ≤ n → parent < nid →
      (∀ f ∈ X ++ Y, ∀ p, f.parent = some p →
        p < nid ∨ nid + sizeL es ≤ p) →
      mirrorsL (X ++ enc es parent nid ++ Y) (topRecs es parent nid) es =
        true := by
  intro n
  induction n with
  | zero =>
      intro es parent nid X Y h hlt havoid
      cases es with
      | nil => simp [topRecs, mirrorsL]
      | cons e rest => cases e <;> simp [sizeL] at h
  | succ n ih =>
      intro es parent nid X Y h hlt havoid
      cases es with
      | nil => simp [topRecs, mirrorsL]
      | cons e rest =>
          cases e with
          | file nm c m =>
              simp only [sizeL] at h havoid
              rw [topRecs]
              simp only [mirrorsL, Bool.and_eq_true, beq_self_eq_true,
                Bool.not_false, true_and]
              have hS : X ++ enc (Entry.file nm c m :: rest) parent nid ++ Y =
                  (X ++ [⟨nid, nm, false, some parent, c, false⟩]) ++
                    enc rest parent (nid + 1) ++ Y := by
                simp [enc, List.append_assoc]
              rw [hS]
              refine ih rest parent (nid + 1)
                (X ++ [⟨nid, nm, false, some parent, c, false⟩]) Y
                (by omega) (by omega) ?_
              intro f hf p hp
              rcases List.mem_append.mp hf with hf | hf
              · rcases List.mem_append.mp hf with hf | hf
                · have := havoid f (List.mem_append.mpr (Or.inl hf)) p hp
                  omega
                · have hfr : f = ⟨nid, nm, false, some parent, c, false⟩ := by
                    simpa using hf
                  subst hfr
                  simp only at hp
                  injection hp with hp
                  omega
              · have := havoid f (List.mem_append.mpr (Or.inr hf)) p hp
                omega
          | dir nm m children =>
              simp only [sizeL] at h havoid
              rw [topRecs]
              simp only [mirrorsL, Bool.and_eq_true, beq_self_eq_true,
                true_and]
              have hass : X ++ enc (Entry.dir nm m children :: rest) parent nid ++ Y =
                  (X ++ [⟨nid, nm, true, some parent, [], false⟩]) ++
                    enc children nid (nid + 1) ++
                    (enc rest parent (nid + 1 + sizeL children) ++ Y) := by
                simp [enc, List.append_assoc]
              refine ⟨?_, ?_⟩
              · -- the subdirectory's remote children mirror its local children
                have hc : childrenOf
                    (X ++ enc (Entry.dir nm m children :: rest) parent nid ++ Y)
                    nid = topRecs children nid (nid + 1) := by
                  unfold childrenOf
                  rw [List.filter_append, List.filter_append]
                  have hX : X.filter (fun f => decide (f.parent = some nid)) = [] := by
                    have := childrenOf_eq_nil X nid ?_
                    · unfold childrenOf at this; exact this
                    · intro f hf p hp
                      have := havoid f (List.mem_append.mpr (Or.inl hf)) p hp
                      omega
                  have hY : Y.filter (fun f => decide (f.parent = some nid)) = [] := by
                    have := childrenOf_eq_nil Y nid ?_
                    · unfold childrenOf at this; exact this
                    · intro f hf p hp
                      have := havoid f (List.mem_append.mpr (Or.inr hf)) p hp
                      omega
                  have hE : (enc (Entry.dir nm m children :: rest) parent nid).filter
                      (fun f => decide (f.parent = some nid)) =
                      topRecs children nid (nid + 1) := by
                    rw [enc, List.filter_cons_of_neg (by simp; omega),
                      List.filter_append]
                    have h1 := childrenOf_enc_top (sizeL children) children nid
                      (nid + 1) le_rfl (by omega)
                    unfold childrenOf at h1
                    have h2 : (enc rest parent (nid + 1 + sizeL children)).filter
                        (fun f => decide (f.parent = some nid)) = [] := by
                      have := childrenOf_eq_nil
                        (enc rest parent (nid + 1 + sizeL children)) nid ?_
                      · unfold childrenOf at this; exact this
                      · intro f hf p hp
                        rcases enc_parents (sizeL rest) rest parent
                          (nid + 1 + sizeL children) f le_rfl hf p hp with
                          h' | h' <;> omega
                    rw [h1, h2, List.append_nil]
                  rw [hX, hY, hE]
                  simp
                rw [hc, hass]
                refine ih children nid (nid + 1)
                  (X ++ [⟨nid, nm, true, some parent, [], false⟩])
                  (enc rest parent (nid + 1 + sizeL children) ++ Y)
                  (by omega) (by omega) ?_
                intro f hf p hp
                rcases List.mem_append.mp hf with hf | hf
                · rcases List.mem_append.mp hf with hf | hf
                  · have := havoid f (List.mem_append.mpr (Or.inl hf)) p hp
                    omega
                  · have hfr : f = ⟨nid, nm, true, some parent, [], false⟩ := by
                      simpa using hf
                    subst hfr
                    simp only at hp
                    injection hp with hp
                    omega
                · rcases List.mem_append.mp hf with hf | hf
                  · rcases enc_parents (sizeL rest) rest parent
                      (nid + 1 + sizeL children) f le_rfl hf p hp with h' | h' <;>
                      omega
                  · have := havoid f (List.mem_append.mpr (Or.inr hf)) p hp
                    omega
              · -- the remaining siblings
                have hass2 : X ++ enc (Entry.dir nm m children :: rest) parent nid ++ Y =
                    (X ++ ⟨nid, nm, true, some parent, [], false⟩ ::
                      enc children nid (nid + 1)) ++
                      enc rest parent (nid + 1 + sizeL children) ++ Y := by
                  simp [enc, List.append_assoc]
                rw [hass2]
                refine ih rest parent (nid + 1 + sizeL children)
                  (X ++ ⟨nid, nm, true, some parent, [], false⟩ ::
                    enc children nid (nid + 1)) Y (by omega) (by omega) ?_
                intro f hf p hp
                rcases List.mem_append.mp hf with hf | hf
                · rcases List.mem_append.mp hf with hf | hf
                  · have := havoid f (List.mem_append.mpr (Or.inl hf)) p hp
                    omega
                  · rcases List.mem_cons.mp hf with hf | hf
                    · subst hf
                      simp only at hp
                      injection hp with hp
                      omega
                    · rcases enc_parents (sizeL children) children nid (nid + 1)
                        f le_rfl hf p hp with h' | h' <;> omega
                · have := havoid f (List.mem_append.mpr (Or.inr hf)) p hp
                  omega

theorem mirrorsL_childrenOf (es : List Entry) (parent nid : Nat)
    (X Y : List RFile) (hlt : parent < nid)
    (havoid : ∀ f ∈ X ++ Y, ∀ p, f.parent = some p →
      p ≠ parent ∧ (p < nid ∨ nid + sizeL es ≤ p)) :
    mirrorsL (X ++ enc es parent nid ++ Y)
      (childrenOf (X ++ enc es parent nid ++ Y) parent) es = true := by
  have hc : childrenOf (X ++ enc es parent nid ++ Y) parent =
      topRecs es parent nid := by
    unfold childrenOf
    rw [List.filter_append, List.filter_append]
    have hX : X.filter (fun f => decide (f.parent = some parent)) = [] := by
      have := childrenOf_eq_nil X parent ?_
      · unfold childrenOf at this; exact this
      · intro f hf p hp
        exact (havoid f (List.mem_append.mpr (Or.inl hf)) p hp).1
    have hY : Y.filter (fun f => decide (f.parent = some parent)) = [] := by
      have := childrenOf_eq_nil Y parent ?_
      · unfold childrenOf at this; exact this
      · intro f hf p hp
        exact (havoid f (List.mem_append.mpr (Or.inr hf)) p hp).1
    have hE := childrenOf_enc_top (sizeL es) es parent nid le_rfl hlt
    unfold childrenOf at hE
    rw [hX, hY, hE]
    simp
  rw [hc]
  exact mirrorsL_topRecs (sizeL es) es parent nid X Y le_rfl hlt
    (fun f hf p hp => (havoid f hf p hp).2)

theorem gdFreshBackupRun_eq (tree : List Entry) (nm : String) :
    gdFreshBackupRun tree nm =
      (none, ⟨gdRootRec :: runRec nm :: enc tree 2 3, 3 + sizeL tree,
              1 + sizeL tree, sizeL tree⟩) := by
  unfold gdFreshBackupRun
  rw [cloneList_eq]
  show gdUploadFolder (fun _ => false) none ⟨true, 1⟩ tree nm
      ⟨[gdRootRec], 2, 0, 0⟩ = _
  unfold gdUploadFolder
  simp only [Bool.false_eq_true, if_false, not_true, ite_false, ite_true,
    Bool.not_true, not_false_iff]
  rw [gdUploadRec_all_ok (sizeL tree) tree 2 _ le_rfl]
  simp [gdRootRec, runRec, WState.mk.injEq]
  try omega

theorem pcFreshBackupRun_eq (tree : List Entry) (nm : String) :
    pcFreshBackupRun tree nm =
      (none, ⟨pcRootRec :: runRec nm :: enc tree 2 3, 3 + sizeL tree,
              1 + sizeL tree, sizeL tree⟩) := by
  unfold pcFreshBackupRun
  rw [cloneList_eq]
  show pcUploadFolder (fun _ => false) (fun _ => false) (fun _ => false) none
      ⟨1⟩ tree nm ⟨[pcRootRec], 2, 0, 0⟩ = _
  unfold pcUploadFolder
  simp only [Bool.false_eq_true, if_false, ite_false]
  rw [pcUploadRec_eq_gd _ _ _ none (sizeL tree) tree 2 _ le_rfl]
  rw [show (fun k : Nat => false || false || false) = (fun _ : Nat => false)
    from funext fun _ => rfl]
  rw [gdUploadRec_all_ok (sizeL tree) tree 2 _ le_rfl]
  simp [pcRootRec, runRec, WState.mk.injEq]
  try omega

/-! ## Claim theorems -/

/-- Claim C1: for every backup cycle that reaches the upload phase,
`RunBackup` returns success (nil error) iff at least one backend outcome is
successful; when every backend outcome is a failure (including "not
configured" outcomes), the cycle returns the error `all uploads failed`. -/
theorem runBackup_success_iff_one_backend (gd pc : Option Bool) (removeOk : Bool) :
    ((RunBackup true true false gd pc removeOk).err = none ↔
      ∃ r ∈ uploadResults gd pc, r.success = true) ∧
    ((∀ r ∈ uploadResults gd pc, r.success = false) →
      (RunBackup true true false gd pc removeOk).err = some "all uploads failed") := by
  rcases gd with _ | (_ | _) <;> rcases pc with _ | (_ | _) <;>
    cases removeOk <;> decide

/-- Witness for C1: both backends unconfigured is an all-failure cycle and
yields the `all uploads failed` error. -/
theorem runBackup_success_iff_one_backend_witness :
    (RunBackup true true false none none true).err = some "all uploads failed" :=
  (runBackup_success_iff_one_backend none none true).2 (by decide)

/-- Counterexample to claim C3 as stated: with exactly one configured
backend (Google Drive, succeeding) the cycle reports `1/2`, so the reported
denominator is the hard-coded 2, not the configured count 1. -/
theorem reported_denominator_not_configured_count :
    configuredCount (some true) none = 1 ∧
    successCount (some true) none = 1 ∧
    reportedCounts (some true) none = (1, 2) ∧
    (reportedCounts (some true) none).2 ≠ configuredCount (some true) none := by
  decide

/-- Claim C3 (amended): with K ≥ 1 successful backends the cycle reports
overall success and the reported numerator is exactly K (the number of
configured backends whose upload succeeded), but the reported denominator
is always the literal 2, regardless of how many backends are configured. -/
theorem runBackup_reports_k_out_of_two (gd pc : Option Bool)
    (h : 1 ≤ successCount gd pc) :
    runBackupUploadPhase gd pc = Except.ok (successCount gd pc) ∧
    reportedCounts gd pc = (successCount gd pc, 2) ∧
    successCount gd pc =
      (if gd = some true then 1 else 0) + (if pc = some true then 1 else 0) := by
  refine ⟨?_, rfl, ?_⟩
  · unfold runBackupUploadPhase
    rw [if_neg (by omega)]
  · rcases gd with _ | (_ | _) <;> rcases pc with _ | (_ | _) <;> decide

/-- Witness for C3 (amended): one configured, one successful backend. -/
theorem runBackup_reports_k_out_of_two_witness :
    runBackupUploadPhase (some true) none = Except.ok (successCount (some true) none) ∧
    reportedCounts (some true) none = (successCount (some true) none, 2) ∧
    successCount (some true) none =
      (if (some true : Option Bool) = some true then 1 else 0) +
        (if (none : Option Bool) = some true then 1 else 0) :=
  runBackup_reports_k_out_of_two (some true) none (by decide)

/-- Claim C4: root-container resolution is idempotent for each backend:
after a first (successful) invocation, a second invocation returns the same
`rootFolderID`, leaves the provider state unchanged, and in particular does
not create a second `DataVault` container. -/
theorem ensureRootFolder_idempotent :
    (∀ (store : List RFile) (nid : Nat),
      gdEnsureRootFolder (gdEnsureRootFolder store nid).2.1
          (gdEnsureRootFolder store nid).2.2 =
        ((gdEnsureRootFolder store nid).1, (gdEnsureRootFolder store nid).2.1,
          (gdEnsureRootFolder store nid).2.2) ∧
      gdDataVaultCount
          (gdEnsureRootFolder (gdEnsureRootFolder store nid).2.1
            (gdEnsureRootFolder store nid).2.2).2.1 =
        gdDataVaultCount (gdEnsureRootFolder store nid).2.1) ∧
    (∀ (store : List RFile) (nid : Nat),
      pcEnsureRootFolder (pcEnsureRootFolder store nid).2.1
          (pcEnsureRootFolder store nid).2.2 =
        ((pcEnsureRootFolder store nid).1, (pcEnsureRootFolder store nid).2.1,
          (pcEnsureRootFolder store nid).2.2) ∧
      pcDataVaultCount
          (pcEnsureRootFolder (pcEnsureRootFolder store nid).2.1
            (pcEnsureRootFolder store nid).2.2).2.1 =
        pcDataVaultCount (pcEnsureRootFolder store nid).2.1) := by
  constructor
  · intro store nid
    match h : store.filter (fun f => decide (f.name = "DataVault" ∧ f.isFolder ∧ ¬ f.trashed)) with
    | m :: rest =>
        have : gdEnsureRootFolder store nid = (m.id, store, nid) := by
          unfold gdEnsureRootFolder
          rw [h]
        rw [this]
        constructor
        · unfold gdEnsureRootFolder
          rw [h]
        · unfold gdEnsureRootFolder
          rw [h]
    | [] =>
        have h1 : gdEnsureRootFolder store nid =
            (nid, store ++ [⟨nid, "DataVault", true, none, [], false⟩], nid + 1) := by
          unfold gdEnsureRootFolder
          rw [h]
        rw [h1]
        have h2 : (store ++ [(⟨nid, "DataVault", true, none, [], false⟩ : RFile)]).filter
            (fun f => decide (f.name = "DataVault" ∧ f.isFolder ∧ ¬ f.trashed)) =
            [⟨nid, "DataVault", true, none, [], false⟩] := by
          rw [List.filter_append, h]
          simp
        constructor
        · unfold gdEnsureRootFolder
          rw [h2]
        · unfold gdEnsureRootFolder
          rw [h2]
  · intro store nid
    match h : (childrenOf store 0).find? (fun f => decide (f.isFolder ∧ f.name = "DataVault")) with
    | some item =>
        have : pcEnsureRootFolder store nid = (item.id, store, nid) := by
          unfold pcEnsureRootFolder
          rw [h]
        rw [this]
        constructor
        · unfold pcEnsureRootFolder
          rw [h]
        · unfold pcEnsureRootFolder
          rw [h]
    | none =>
        have h1 : pcEnsureRootFolder store nid =
            (nid, store ++ [⟨nid, "DataVault", true, some 0, [], false⟩], nid + 1) := by
          unfold pcEnsureRootFolder
          rw [h]
        rw [h1]
        have hch : childrenOf (store ++ [(⟨nid, "DataVault", true, some 0, [], false⟩ : RFile)]) 0 =
            childrenOf store 0 ++ [⟨nid, "DataVault", true, some 0, [], false⟩] := by
          unfold childrenOf
          rw [List.filter_append]
          simp
        have h2 : (childrenOf (store ++ [(⟨nid, "DataVault", true, some 0, [], false⟩ : RFile)]) 0).find?
            (fun f => decide (f.isFolder ∧ f.name = "DataVault")) =
            some ⟨nid, "DataVault", true, some 0, [], false⟩ := by
          rw [hch, List.find?_append, h]
          simp
        constructor
        · unfold pcEnsureRootFolder
          rw [h2]
        · unfold pcEnsureRootFolder
          rw [h2]

/-- Claim C2: for every source tree, cloning it into staging
(`copyDirectory`) and then mirroring the staged tree to a backend with no
per-entry failures (`uploadDirectoryRecursive` with a reliable network)
produces a remote tree isomorphic to the source tree — for both the Google
Drive and the pCloud adapter: the run succeeds, the run container (bearing
the run label) is the unique child of the root container, and the remote
children of the run container mirror the source forest recursively (same
relative paths in order, same file byte content, every local directory
mapped to a remote container). -/
theorem clone_then_mirror_isomorphic (tree : List Entry) (nm : String) :
    ((gdFreshBackupRun tree nm).1 = none ∧
      childrenOf (gdFreshBackupRun tree nm).2.store 1 = [runRec nm] ∧
      mirrorsL (gdFreshBackupRun tree nm).2.store
        (childrenOf (gdFreshBackupRun tree nm).2.store 2) tree = true) ∧
    ((pcFreshBackupRun tree nm).1 = none ∧
      childrenOf (pcFreshBackupRun tree nm).2.store 1 = [runRec nm] ∧
      mirrorsL (pcFreshBackupRun tree nm).2.store
        (childrenOf (pcFreshBackupRun tree nm).2.store 2) tree = true) := by
  have hencnil : ∀ fid : Nat, fid < 2 →
      (enc tree 2 3).filter (fun f => decide (f.parent = some fid)) = [] := by
    intro fid hfid
    have := childrenOf_eq_nil (enc tree 2 3) fid ?_
    · unfold childrenOf at this
      exact this
    · intro f hf p hp
      rcases enc_parents (sizeL tree) tree 2 3 f le_rfl hf p hp with h' | h' <;>
        omega
  have hg := gdFreshBackupRun_eq tree nm
  have hpc := pcFreshBackupRun_eq tree nm
  refine ⟨⟨by rw [hg], ?_, ?_⟩, by rw [hpc], ?_, ?_⟩
  · rw [hg]
    dsimp only
    unfold childrenOf
    rw [List.filter_cons_of_neg (by simp [gdRootRec]),
      List.filter_cons_of_pos (by simp [runRec]), hencnil 1 (by omega)]
  · rw [hg]
    dsimp only
    rw [show gdRootRec :: runRec nm :: enc tree 2 3 =
      [gdRootRec, runRec nm] ++ enc tree 2 3 ++ [] by simp]
    refine mirrorsL_childrenOf tree 2 3 [gdRootRec, runRec nm] [] (by omega) ?_
    intro f hf p hp
    simp only [List.append_nil, List.mem_cons, List.not_mem_nil,
      or_false] at hf
    rcases hf with hf | hf
    · subst hf
      simp [gdRootRec] at hp
    · subst hf
      simp only [runRec] at hp
      injection hp with hp
      omega
  · rw [hpc]
    dsimp only
    unfold childrenOf
    rw [List.filter_cons_of_neg (by simp [pcRootRec]),
      List.filter_cons_of_pos (by simp [runRec]), hencnil 1 (by omega)]
  · rw [hpc]
    dsimp only
    rw [show pcRootRec :: runRec nm :: enc tree 2 3 =
      [pcRootRec, runRec nm] ++ enc tree 2 3 ++ [] by simp]
    refine mirrorsL_childrenOf tree 2 3 [pcRootRec, runRec nm] [] (by omega) ?_
    intro f hf p hp
    simp only [List.append_nil, List.mem_cons, List.not_mem_nil,
      or_false] at hf
    rcases hf with hf | hf
    · subst hf
      simp only [pcRootRec] at hp
      injection hp with hp
      omega
    · subst hf
      simp only [runRec] at hp
      injection hp with hp
      omega

/-- Counterexample to claim C5 as stated: the oracle fails operation 1 (the
single file's upload; operation 0 is the run-container creation, which
succeeds), yet `UploadFolder` returns nil: the final store holds only the
run container, the file is missing, and the result still reports success. -/
theorem uploadFolder_success_despite_file_failure :
    (gdUploadFolder (fun n => n == 1) none ⟨true, 1⟩
        [Entry.file "a" [1, 2, 3] 420] "backup_2024" ⟨[], 2, 0, 0⟩).1 = none ∧
    (gdUploadFolder (fun n => n == 1) none ⟨true, 1⟩
        [Entry.file "a" [1, 2, 3] 420] "backup_2024" ⟨[], 2, 0, 0⟩).2.store =
      [⟨2, "backup_2024", true, some 1, [], false⟩] := by
  constructor <;> simp [gdUploadFolder, gdUploadRec, ctxDone]

/-- Claim C5 (amended): in an uncancelled run, each adapter's
`UploadFolder` returns success iff the top-level run container was created
without error (for Google Drive additionally iff the service was
initialized); per-file and per-subfolder failures during the recursive
mirror are logged and skipped and never affect the returned result. -/
theorem uploadFolder_success_iff_top_container
    (fail hF pF rF : Nat → Bool) (gdc : GoogleDriveClient) (pc : PCloudClient)
    (tree : List Entry) (nm : String) (st : WState) :
    ((gdUploadFolder fail none gdc tree nm st).1 = none ↔
      gdc.serviceInit = true ∧ fail st.ops = false) ∧
    ((pcUploadFolder hF pF rF none pc tree nm st).1 = none ↔
      hF st.ops = false ∧ pF st.ops = false ∧ rF st.ops = false) := by
  constructor
  · unfold gdUploadFolder
    cases hinit : gdc.serviceInit
    · simp [hinit]
    · cases hf : fail st.ops
      · simp only [hinit, hf, Bool.true_eq_false, not_true, not_false_iff,
          Bool.false_eq_true, if_false, if_true]
        simp [gdUploadRec_no_cancel fail (sizeL tree) tree _ _ le_rfl]
      · simp [hinit, hf]
  · unfold pcUploadFolder
    cases h1 : hF st.ops
    · cases h2 : pF st.ops
      · cases h3 : rF st.ops
        · simp only [h1, h2, h3, Bool.false_eq_true, if_false]
          rw [pcUploadRec_eq_gd hF pF rF none (sizeL tree) tree _ _ le_rfl]
          simp [gdUploadRec_no_cancel _ (sizeL tree) tree _ _ le_rfl]
        · simp [h1, h2, h3]
      · simp [h1, h2]
    · simp [h1]

/-- Counterexample to claim C6 as stated: the cancellation signal fires at
check index 1, while the walk is inside the (single, hence last) top-level
subdirectory. The nested recursion level returns `ctx.Err()`, but its
caller logs and swallows that error, so the top-level `UploadFolder` call
returns nil — success — not the cancellation error. Two cancellation
checks happened (final check counter 2), and the second observed the
fired signal. -/
theorem uploadFolder_swallows_nested_cancellation :
    (gdUploadFolder (fun _ => false) (some 1) ⟨true, 1⟩
        [Entry.dir "sub" 493 [Entry.file "b" [] 420]] "backup_2024"
        ⟨[], 2, 0, 0⟩).1 = none ∧
    (gdUploadFolder (fun _ => false) (some 1) ⟨true, 1⟩
        [Entry.dir "sub" 493 [Entry.file "b" [] 420]] "backup_2024"
        ⟨[], 2, 0, 0⟩).2.checks = 2 ∧
    ctxDone (some 1) 1 = true := by
  refine ⟨?_, ?_, rfl⟩ <;> simp [gdUploadFolder, gdUploadRec, ctxDone]

/-- Claim C6 (amended): in both adapters the recursive mirror walk checks
cancellation before processing each entry, and the invocation that observes
the fired signal stops early and returns the cancellation error; however a
cancellation error surfacing from a nested recursive call is logged and
swallowed by its caller, so it propagates out of `UploadFolder` only when a
top-level entry remains to be processed after the signal fires. -/
theorem uploadRec_cancel_checked_each_entry
    (fail hF pF rF : Nat → Bool) (k : Nat) (e : Entry) (rest : List Entry)
    (parent : Nat) (st : WState) (hk : k ≤ st.checks) :
    (gdUploadRec fail (some k) (e :: rest) parent st).1 =
        some GoErr.ctxCanceled ∧
    (pcUploadRec hF pF rF (some k) (e :: rest) parent st).1 =
        some GoErr.ctxCanceled := by
  have hd : ctxDone (some k) st.checks = true := by
    simp [ctxDone, hk]
  constructor
  · rw [gdUploadRec]
    simp [hd]
  · rw [pcUploadRec]
    simp [hd]

/-- Witness for C6 (amended): a one-entry walk whose context is already
cancelled returns `ctx.Err()` from both adapters. -/
theorem uploadRec_cancel_checked_each_entry_witness :
    (gdUploadRec (fun _ => false) (some 0) [Entry.file "a" [] 0] 1
        ⟨[], 2, 0, 0⟩).1 = some GoErr.ctxCanceled ∧
    (pcUploadRec (fun _ => false) (fun _ => false) (fun _ => false) (some 0)
        [Entry.file "a" [] 0] 1 ⟨[], 2, 0, 0⟩).1 = some GoErr.ctxCanceled :=
  uploadRec_cancel_checked_each_entry (fun _ => false) (fun _ => false)
    (fun _ => false) (fun _ => false) 0 (Entry.file "a" [] 0) [] 1
    ⟨[], 2, 0, 0⟩ (by decide)

/-- Counterexample to claim C7 as stated: a pCloud adapter whose
initialization never succeeded (its `rootFolderID` still holds the int64
zero value, which is the pCloud account root) does not fail fast: its
`UploadFolder` issues the top-level `createfolder` network request (the
operation counter advances) and here even returns success, with the run
container created under folderid 0. -/
theorem pcloud_no_uninitialized_guard :
    (pcUploadFolder (fun _ => false) (fun _ => false) (fun _ => false) none
        ⟨0⟩ [] "backup_2024" ⟨[], 1, 0, 0⟩).1 = none ∧
    (pcUploadFolder (fun _ => false) (fun _ => false) (fun _ => false) none
        ⟨0⟩ [] "backup_2024" ⟨[], 1, 0, 0⟩).2.ops = 1 ∧
    (pcUploadFolder (fun _ => false) (fun _ => false) (fun _ => false) none
        ⟨0⟩ [] "backup_2024" ⟨[], 1, 0, 0⟩).2.store =
      [⟨1, "backup_2024", true, some 0, [], false⟩] := by
  refine ⟨?_, ?_, ?_⟩ <;> simp [pcUploadFolder, pcUploadRec]

/-- Claim C7 (amended): only the Google Drive adapter fails fast: with an
uninitialized service its `UploadFolder` returns the "not initialized"
error and performs no network call (the state, including the operation
counter, is untouched). The pCloud adapter has no initialization guard and
always performs at least the top-level `createfolder` network call. -/
theorem gdrive_fails_fast_uninitialized
    (fail hF pF rF : Nat → Bool) (cancelAt : Option Nat)
    (gdc : GoogleDriveClient) (pc : PCloudClient) (tree : List Entry)
    (nm : String) (st : WState) (h : gdc.serviceInit = false) :
    gdUploadFolder fail cancelAt gdc tree nm st =
        (some GoErr.notInitialized, st) ∧
    st.ops + 1 ≤ (pcUploadFolder hF pF rF cancelAt pc tree nm st).2.ops := by
  constructor
  · simp [gdUploadFolder, h]
  · unfold pcUploadFolder
    by_cases h1 : hF st.ops = true
    · simp [h1]
    · by_cases h2 : pF st.ops = true
      · simp [h1, h2]
      · by_cases h3 : rF st.ops = true
        · simp [h1, h2, h3]
        · simp only [h1, h2, h3, Bool.false_eq_true, if_false]
          rw [pcUploadRec_eq_gd hF pF rF cancelAt (sizeL tree) tree _ _ le_rfl]
          exact le_trans (by dsimp only; omega)
            (gdUploadRec_ops_mono _ cancelAt (sizeL tree) tree _ _ le_rfl)

/-- Witness for C7 (amended): an uninitialized Google Drive client fails
fast while the pCloud adapter performs its network call. -/
theorem gdrive_fails_fast_uninitialized_witness :
    gdUploadFolder (fun _ => false) none ⟨false, 0⟩ [] "backup_2024"
        ⟨[], 1, 0, 0⟩ = (some GoErr.notInitialized, ⟨[], 1, 0, 0⟩) ∧
    (⟨[], 1, 0, 0⟩ : WState).ops + 1 ≤
      (pcUploadFolder (fun _ => false) (fun _ => false) (fun _ => false) none
        ⟨0⟩ [] "backup_2024" ⟨[], 1, 0, 0⟩).2.ops :=
  gdrive_fails_fast_uninitialized (fun _ => false) (fun _ => false)
    (fun _ => false) (fun _ => false) none ⟨false, 0⟩ ⟨0⟩ [] "backup_2024"
    ⟨[], 1, 0, 0⟩ rfl

/-- Claim C8: once the per-run staging directory has been created, its
removal is attempted at cycle end on every exit path (cloning failure, dry
run, upload failure — including cancellation, which surfaces as failed
upload outcomes — and success); a removal failure is logged (warning) and
never changes the cycle's returned error. -/
theorem cleanup_on_every_exit_path (copyOk dryRun : Bool) (gd pc : Option Bool)
    (removeOk : Bool) :
    (RunBackup true copyOk dryRun gd pc removeOk).cleanupRan = true ∧
    (RunBackup true copyOk dryRun gd pc removeOk).err =
      (RunBackup true copyOk dryRun gd pc true).err ∧
    (RunBackup true copyOk dryRun gd pc false).cleanupWarn = true := by
  cases copyOk <;> cases dryRun <;> cases removeOk <;>
    rcases gd with _ | (_ | _) <;> rcases pc with _ | (_ | _) <;> decide

/-- Claim C9: the system drives one backup cycle immediately (from `main`),
then one cycle per tick; the schedule of cycles depends only on the event
trace, never on cycle results (a failed cycle does not stop later ones);
the loop returns iff the cancellation signal arrives, and then it returns
the cancellation error `ctx.Err()`. -/
theorem scheduler_runs_until_cancelled (results : Nat → Bool)
    (events : List SchedEvent) :
    (mainRun results events).2 =
      (List.range (1 + ticksUntilCancel events)).map results ∧
    ((mainRun results events).1 = some GoErr.ctxCanceled ↔
      SchedEvent.cancel ∈ events) ∧
    (SchedEvent.cancel ∉ events → (mainRun results events).1 = none) := by
  have h := startScheduler_spec results events 1
  refine ⟨?_, ?_, ?_⟩
  · show results 0 :: (StartScheduler results 1 events).2 = _
    rw [h.1, List.range_eq_range', Nat.add_comm 1, List.range'_succ, List.map_cons]
  · show (StartScheduler results 1 events).1 = some GoErr.ctxCanceled ↔ _
    rw [h.2]
    by_cases hc : SchedEvent.cancel ∈ events <;> simp [hc]
  · intro hc
    show (StartScheduler results 1 events).1 = none
    rw [h.2, if_neg hc]

/-- Sanity instance of the spec's concrete scenario: a source tree with a
3-byte file at the top level and an empty file inside a subdirectory is
mirrored exactly, as checked by evaluating the whole pipeline. -/
theorem freshRun_concrete_scenario :
    mirrorsL (gdFreshBackupRun [Entry.file "atxt" [1, 2, 3] 420,
        Entry.dir "sub" 493 [Entry.file "btxt" [] 420]] "backup_x").2.store
      (childrenOf (gdFreshBackupRun [Entry.file "atxt" [1, 2, 3] 420,
        Entry.dir "sub" 493 [Entry.file "btxt" [] 420]] "backup_x").2.store 2)
      [Entry.file "atxt" [1, 2, 3] 420,
        Entry.dir "sub" 493 [Entry.file "btxt" [] 420]] = true := by
  simp [gdFreshBackupRun, gdUploadFolder, gdUploadRec, ctxDone, cloneList,
    copyFile, gdEnsureRootFolder, childrenOf, mirrorsL, gdRootRec, runRec]

/-- Claim C10: the `excludes` pattern list is carried by the configuration
file type but never consulted: flag/config merging produces the same
resolved configuration whatever the exclude list says (the resolved
`Config` has no excludes field at all), and the directory cloner stages
every file and directory of the source tree unchanged. -/
theorem excludes_never_consulted :
    (∀ (pd : String → Option Int) (cf : ConfigFile) (flags : Config)
        (ex : List String),
      MergeConfigWithFlags pd { cf with excludes := ex } flags =
        MergeConfigWithFlags pd cf flags) ∧
    (∀ entries, cloneList entries = entries) :=
  ⟨fun _ _ _ _ => rfl, cloneList_eq⟩

end DataVault
